import Mathlib

/-!
Verification of the orchestration core of `crosscat/IPClusterEngine.py`.

The file embeds, as Lean functions, the two orchestration entry points
`IPClusterEngine.initialize` and `IPClusterEngine.analyze` together with the
worker-side entry points `do_initialize` and `do_analyze`.  The inference
engine proper (`crosscat.LocalEngine._do_initialize` / `_do_analyze`) and the
worker-pool transport are external collaborators and are taken as function
parameters.  Repository code that the engine calls but that is not part of
this file's source (`LocalEngine.get_next_seed`, the seed generator, and
`sample_utils.ensure_multistate`) is modelled from the specification, as
marked in the doc comments below.

Machine-visible effects of a call (the one shared-context push to the worker
pool and the per-task dispatches) are recorded in an event trace so that
ordering and once-per-call properties can be stated.
-/

namespace CrossCat

/-- A worker-task failure surfaced by the dispatch layer: the index of the
failing task and the wrapped underlying cause. -/
structure WorkerTaskError (E : Type) where
  index : Nat
  cause : E
deriving DecidableEq

/-- Errors an orchestration call can surface to the caller.
`inputShape` mirrors the `InputShapeError` of the spec (unequal latent /
partition sequence lengths); `workerTask` wraps a failed worker task;
`valueUnpack` is the Python `ValueError` raised by unpacking
`zip(*chain_tuples)` into two names when `chain_tuples` is empty;
`indexOut` is the Python `IndexError` of a `[0]` subscript on an empty
sequence. -/
inductive CallError (E : Type) where
  | inputShape : CallError E
  | workerTask : WorkerTaskError E → CallError E
  | valueUnpack : CallError E
  | indexOut : CallError E
deriving DecidableEq

/-- A latent state for one chain: either a scalar `(X_L, X_D)` pair or a
batch given as two parallel sequences, exactly the two shapes the Python
API accepts and returns. -/
inductive ChainShape (XL XD : Type) where
  | scalar : XL → XD → ChainShape XL XD
  | batch : List XL → List XD → ChainShape XL XD
deriving DecidableEq

/-- Modelled from the spec: the SeedSequencer of §4.1.  `LocalEngine`
(not part of the source file under verification) holds a seed generator
that issues integer seeds sequentially from a caller-supplied base; the
engine "holds no state other than a seed generator".  The counter is its
only state. -/
structure SeedSequencer where
  counter : Nat
deriving DecidableEq

/-- Modelled from the spec: `LocalEngine.get_next_seed`, §4.1 — returns the
current seed and advances the monotonically increasing counter by one. -/
def get_next_seed (s : SeedSequencer) : Nat × SeedSequencer :=
  (s.counter, ⟨s.counter + 1⟩)

/-- The seed list built by `[self.get_next_seed() for seed_idx in range(n)]`:
`n` successive draws from the sequencer, in issuance order. -/
def mintSeeds : SeedSequencer → Nat → List Nat × SeedSequencer
  | s, 0 => ([], s)
  | s, n + 1 =>
    let drawn := get_next_seed s
    let rest := mintSeeds drawn.2 n
    (drawn.1 :: rest.1, rest.2)

/-- The shared context pushed to every worker by `initialize`:
`dict(M_c=M_c, M_r=M_r, T=T, initialization=initialization, ...)`. -/
structure InitCtx (MC MR TT II : Type) where
  M_c : MC
  M_r : MR
  T : TT
  initialization : II

/-- The shared context pushed to every worker by `analyze`:
`dict(M_c=M_c, T=T, kernel_list=kernel_list, n_steps=n_steps, c=c, r=r,
max_iterations=max_iterations, max_time=max_time)`. -/
structure AnalyzeCtx (MC TT KL CI RI : Type) where
  M_c : MC
  T : TT
  kernel_list : KL
  n_steps : Nat
  c : CI
  r : RI
  max_iterations : Int
  max_time : Int

/-- One externally visible interaction of a call with the worker pool:
the once-per-call shared-context push, or the dispatch of one task. -/
inductive Event (C A : Type) where
  | push : C → Event C A
  | runTask : A → Event C A

/-- Worker-side entry point `do_initialize(seed)`: reads the pushed shared
context and calls the inference engine
`_do_initialize(M_c, M_r, T, initialization, seed)`.  The engine is the
injected parameter `engine`; a worker task may fail, hence `Except`. -/
def do_initialize {MC MR TT II XL XD E : Type}
    (engine : MC → MR → TT → II → Nat → Except E (XL × XD))
    (ctx : InitCtx MC MR TT II) (seed : Nat) : Except E (XL × XD) :=
  engine ctx.M_c ctx.M_r ctx.T ctx.initialization seed

/-- Worker-side entry point `do_analyze(((X_L, X_D), seed))`: reads the
pushed shared context and calls the inference engine
`_do_analyze(M_c, T, X_L, X_D, kernel_list, n_steps, c, r, max_iterations,
max_time, seed)`. -/
def do_analyze {MC TT KL CI RI XL XD E : Type}
    (engine : MC → TT → XL → XD → KL → Nat → CI → RI → Int → Int → Nat →
      Except E (XL × XD))
    (ctx : AnalyzeCtx MC TT KL CI RI) :
    (XL × XD) × Nat → Except E (XL × XD)
  | ((x_l, x_d), seed) =>
    engine ctx.M_c ctx.T x_l x_d ctx.kernel_list ctx.n_steps ctx.c ctx.r
      ctx.max_iterations ctx.max_time seed

/-- Modelled from the spec: the worker-pool `map` capability of §4.4 at a
given starting index — results come back in input order; if a task raises,
the call as a whole fails with the failing task's index and the underlying
cause, with no partial results and no retry. -/
def mapTasksFrom {A B E : Type} (f : A → Except E B) :
    Nat → List A → Except (WorkerTaskError E) (List B)
  | _, [] => .ok []
  | i, x :: xs =>
    match f x with
    | .error e => .error ⟨i, e⟩
    | .ok b =>
      match mapTasksFrom f (i + 1) xs with
      | .error err => .error err
      | .ok bs => .ok (b :: bs)

/-- Modelled from the spec: `self.mapper(fn, args)` — the worker-pool map
over the task argument list, per §4.4. -/
def mapTasks {A B E : Type} (f : A → Except E B) (xs : List A) :
    Except (WorkerTaskError E) (List B) :=
  mapTasksFrom f 0 xs

/-- The Python statement `X_L_list, X_D_list = zip(*chain_tuples)`.
`zip(*ts)` on a non-empty list of pairs yields the two projections; on the
empty list it yields the empty sequence, whose unpacking into two names
raises `ValueError` — hence `none` there. -/
def unzipPairs {A B : Type} (ts : List (A × B)) : Option (List A × List B) :=
  match ts with
  | [] => none
  | _ => some (ts.map Prod.fst, ts.map Prod.snd)

/-- Modelled from the spec: `sample_utils.ensure_multistate` /
`ChainStateCodec.normalize` of §4.2 — accepts a single `(X_L, X_D)` pair or
two parallel equal-length sequences, returning the list form together with
the `was_multistate` flag; fails with `InputShapeError` when the two
sequences have unequal length. -/
def ensure_multistate {XL XD E : Type} (input : ChainShape XL XD) :
    Except (CallError E) (List XL × List XD × Bool) :=
  match input with
  | .scalar x_l x_d => .ok ([x_l], [x_d], false)
  | .batch x_l_list x_d_list =>
    if x_l_list.length = x_d_list.length then .ok (x_l_list, x_d_list, true)
    else .error .inputShape

/-- Everything one orchestration call returns: the result (or error) handed
to the caller, the updated seed sequencer, and the trace of worker-pool
interactions the call performed, in order. -/
structure CallResult (C A XL XD E : Type) where
  result : Except (CallError E) (ChainShape XL XD)
  seq : SeedSequencer
  trace : List (Event C A)

/-- Embedding of `IPClusterEngine.initialize(M_c, M_r, T, initialization, n_chains)`:
push the shared context to all workers, mint one seed per chain, map
`do_initialize` over the seeds, unzip the resulting pair list, and collapse
to a scalar result exactly when `n_chains == 1`. -/
def initializeCall {MC MR TT II XL XD E : Type}
    (engine : MC → MR → TT → II → Nat → Except E (XL × XD))
    (s : SeedSequencer) (ctx : InitCtx MC MR TT II) (n_chains : Nat) :
    CallResult (InitCtx MC MR TT II) Nat XL XD E :=
  let minted := mintSeeds s n_chains
  let seeds := minted.1
  let trace := Event.push ctx :: seeds.map Event.runTask
  match mapTasks ( do_initialize engine ctx) seeds with
  | .error err => ⟨.error (.workerTask err), minted.2, trace⟩
  | .ok chain_tuples =>
    match unzipPairs chain_tuples with
    | none => ⟨.error .valueUnpack, minted.2, trace⟩
    | some (X_L_list, X_D_list) =>
      if n_chains = 1 then
        match X_L_list.head?, X_D_list.head? with
        | some x_l, some x_d => ⟨.ok (.scalar x_l x_d), minted.2, trace⟩
        | _, _ => ⟨.error .indexOut, minted.2, trace⟩
      else ⟨.ok (.batch X_L_list X_D_list), minted.2, trace⟩

/-- Embedding of `IPClusterEngine.analyze(M_c, T, X_L, X_D, ...)`: push the shared
context to all workers, normalize the input to list form, mint one seed per
chain, zip states with seeds, map `do_analyze` over the argument tuples,
unzip, and collapse back to a scalar exactly when the input was scalar.
The context push precedes the shape check, as in the source. -/
def analyze {MC TT KL CI RI XL XD E : Type}
    (engine : MC → TT → XL → XD → KL → Nat → CI → RI → Int → Int → Nat →
      Except E (XL × XD))
    (s : SeedSequencer) (ctx : AnalyzeCtx MC TT KL CI RI)
    (input : ChainShape XL XD) :
    CallResult (AnalyzeCtx MC TT KL CI RI) ((XL × XD) × Nat) XL XD E :=
  match ensure_multistate (E := E) input with
  | .error err => ⟨.error err, s, [Event.push ctx]⟩
  | .ok (X_L_list, X_D_list, was_multistate) =>
    let minted := mintSeeds s X_L_list.length
    let seeds := minted.1
    let arg_tuples := List.zip (List.zip X_L_list X_D_list) seeds
    let trace := Event.push ctx :: arg_tuples.map Event.runTask
    match mapTasks (do_analyze engine ctx) arg_tuples with
    | .error err => ⟨.error (.workerTask err), minted.2, trace⟩
    | .ok chain_tuples =>
      match unzipPairs chain_tuples with
      | none => ⟨.error .valueUnpack, minted.2, trace⟩
      | some (X_L_prime_list, X_D_prime_list) =>
        if was_multistate then
          ⟨.ok (.batch X_L_prime_list X_D_prime_list), minted.2, trace⟩
        else
          match X_L_prime_list.head?, X_D_prime_list.head? with
          | some x_l, some x_d => ⟨.ok (.scalar x_l x_d), minted.2, trace⟩
          | _, _ => ⟨.error .indexOut, minted.2, trace⟩

/-! ### Basic lemmas about the building blocks -/

/-- The seeds issued are the consecutive run of integers starting at the
current counter and leaves the counter advanced by the number drawn. -/
theorem mintSeeds_eq (s : SeedSequencer) (n : Nat) :
    mintSeeds s n = (List.range' s.counter n, ⟨s.counter + n⟩) := by
  induction n generalizing s with
  | zero => simp [mintSeeds]
  | succ n ih =>
    simp [mintSeeds, get_next_seed, ih, List.range'_succ]
    omega

theorem mintSeeds_length (s : SeedSequencer) (n : Nat) :
    (mintSeeds s n).1.length = n := by
  simp [mintSeeds_eq]

theorem mintSeeds_counter (s : SeedSequencer) (n : Nat) :
    (mintSeeds s n).2.counter = s.counter + n := by
  simp [mintSeeds_eq]

/-- A successful worker-pool map returns exactly one result per task. -/
theorem mapTasksFrom_ok_length {A B E : Type} (f : A → Except E B) :
    ∀ (xs : List A) (i : Nat) (ys : List B),
      mapTasksFrom f i xs = .ok ys → ys.length = xs.length := by
  intro xs
  induction xs with
  | nil => intro i ys h; simp [mapTasksFrom] at h; simp [h.symm]
  | cons x xs ih =>
    intro i ys h
    simp only [mapTasksFrom] at h
    cases hx : f x with
    | error e => rw [hx] at h; exact absurd h (by simp)
    | ok b =>
      rw [hx] at h
      cases hrec : mapTasksFrom f (i + 1) xs with
      | error err => rw [hrec] at h; exact absurd h (by simp)
      | ok bs =>
        rw [hrec] at h
        cases h
        simp [ih (i + 1) bs hrec]

/-- In a successful worker-pool map, the result at a position is the task
function applied to the argument at the same position: order is preserved
and each output depends only on its own input. -/
theorem mapTasksFrom_ok_get {A B E : Type} (f : A → Except E B) :
    ∀ (xs : List A) (i : Nat) (ys : List B),
      mapTasksFrom f i xs = .ok ys →
      ∀ (j : Nat) (hx : j < xs.length) (hy : j < ys.length),
        f (xs.get ⟨j, hx⟩) = .ok (ys.get ⟨j, hy⟩) := by
  intro xs
  induction xs with
  | nil => intro i ys _ j hx; exact absurd hx (by simp)
  | cons x xs ih =>
    intro i ys h j hx hy
    simp only [mapTasksFrom] at h
    cases hfx : f x with
    | error e => rw [hfx] at h; exact absurd h (by simp)
    | ok b =>
      rw [hfx] at h
      cases hrec : mapTasksFrom f (i + 1) xs with
      | error err => rw [hrec] at h; exact absurd h (by simp)
      | ok bs =>
        rw [hrec] at h
        cases h
        cases j with
        | zero => simpa using hfx
        | succ j =>
          exact ih (i + 1) bs hrec j (by simpa using hx) (by simpa using hy)

/-- If every task succeeds, the worker-pool map succeeds. -/
theorem mapTasksFrom_ok_of_forall {A B E : Type} (f : A → Except E B) :
    ∀ (xs : List A) (i : Nat), (∀ x ∈ xs, ∃ b, f x = .ok b) →
      ∃ ys, mapTasksFrom f i xs = .ok ys := by
  intro xs
  induction xs with
  | nil => intro i _; exact ⟨[], rfl⟩
  | cons x xs ih =>
    intro i hall
    obtain ⟨b, hb⟩ := hall x (by simp)
    obtain ⟨bs, hbs⟩ := ih (i + 1) (fun y hy => hall y (by simp [hy]))
    exact ⟨b :: bs, by simp only [mapTasksFrom, hb, hbs]⟩

/-- The worker-pool map fails with the index of the first failing task and
wraps that task's own error. -/
theorem mapTasksFrom_first_error {A B E : Type} (f : A → Except E B) :
    ∀ (xs : List A) (i j : Nat) (hj : j < xs.length) (e : E),
      f (xs.get ⟨j, hj⟩) = .error e →
      (∀ k (hk : k < j), ∃ b,
        f (xs.get ⟨k, Nat.lt_trans hk hj⟩) = .ok b) →
      mapTasksFrom f i xs = .error ⟨i + j, e⟩ := by
  intro xs
  induction xs with
  | nil => intro i j hj; exact absurd hj (by simp)
  | cons x xs ih =>
    intro i j hj e hfail hprev
    cases j with
    | zero =>
      simp only [List.get] at hfail
      simp only [mapTasksFrom, hfail, Nat.add_zero]
    | succ j =>
      obtain ⟨b, hb⟩ := hprev 0 (Nat.succ_pos j)
      simp only [List.get] at hb hfail
      have hrec := ih (i + 1) j (by simpa using hj) e hfail
        (fun k hk => by
          obtain ⟨b', hb'⟩ := hprev (k + 1) (by omega)
          exact ⟨b', hb'⟩)
      simp only [mapTasksFrom, hb, hrec]
      congr 1
      simp
      omega

theorem unzipPairs_of_ne_nil {A B : Type} (ts : List (A × B)) (h : ts ≠ []) :
    unzipPairs ts = some (ts.map Prod.fst, ts.map Prod.snd) := by
  cases ts with
  | nil => exact absurd rfl h
  | cons t ts => rfl

/-! ### Concrete instantiation used for sanity checks and witnesses

All type parameters are taken to be `Nat` (`max_iterations` / `max_time`
stay `Int` as in the model).  `engInitN` is an always-succeeding inference
engine whose output records the seed it was given; `engAnaN` adds the seed
to the latent state, so seed dependence is observable. -/

def engInitN : Nat → Nat → Nat → Nat → Nat → Except Nat (Nat × Nat) :=
  fun _ _ _ _ seed => .ok (seed, seed + 100)

def engAnaN :
    Nat → Nat → Nat → Nat → Nat → Nat → Nat → Nat → Int → Int → Nat →
      Except Nat (Nat × Nat) :=
  fun _ _ x_l x_d _ _ _ _ _ _ seed => .ok (x_l + seed, x_d)

/-- An inference engine whose task fails (with cause `42`) exactly when it
is handed seed `1`. -/
def engInitFailN : Nat → Nat → Nat → Nat → Nat → Except Nat (Nat × Nat) :=
  fun _ _ _ _ seed => if seed = 1 then .error 42 else .ok (seed, seed)

/-- An analyze engine whose task fails (with cause `7`) exactly when it is
handed seed `1`. -/
def engAnaFailN :
    Nat → Nat → Nat → Nat → Nat → Nat → Nat → Nat → Int → Int → Nat →
      Except Nat (Nat × Nat) :=
  fun _ _ x_l x_d _ _ _ _ _ _ seed =>
    if seed = 1 then .error 7 else .ok (x_l + seed, x_d)

/-- Shared context for `initialize` in the concrete scenario of §8:
metadata describing 3 columns over 10 rows. -/
def ctxInitN : InitCtx Nat Nat Nat Nat := ⟨3, 10, 0, 0⟩

/-- Shared context for `analyze` in the concrete scenario of §8
(`n_steps = 1`, `max_iterations = max_time = -1`). -/
def ctxAnaN : AnalyzeCtx Nat Nat Nat Nat Nat := ⟨3, 0, 0, 1, 0, 0, -1, -1⟩

example : (initializeCall engInitN ⟨0⟩ ctxInitN 1).result =
    .ok (.scalar 0 100) := by rfl

example : (initializeCall engInitN ⟨0⟩ ctxInitN 3).result =
    .ok (.batch [0, 1, 2] [100, 101, 102]) := by rfl

example : (analyze engAnaN ⟨3⟩ ctxAnaN (.batch [10, 20, 30] [1, 2, 3])).result
    = .ok (.batch [13, 24, 35] [1, 2, 3]) := by rfl

example : (analyze engAnaN ⟨0⟩ ctxAnaN (.scalar 7 9)).result =
    .ok (.scalar 7 9) := by rfl

example : (analyze engAnaN ⟨0⟩ ctxAnaN (.batch [1] [])).result =
    .error .inputShape := by rfl

/-! ### Claim C1 -/

/-- C1: a successful `initialize` call with `n_chains = 1` returns a single
scalar `(LatentState, PartitionState)` pair, not a length-1 batch, while a
successful call with `n_chains = k ≥ 2` returns a batch of two parallel
sequences, each of length `k`. -/
theorem initialize_shape_polymorphism {MC MR TT II XL XD E : Type}
    (engine : MC → MR → TT → II → Nat → Except E (XL × XD))
    (s : SeedSequencer) (ctx : InitCtx MC MR TT II) (n_chains : Nat)
    (out : ChainShape XL XD)
    (h : (initializeCall engine s ctx n_chains).result = .ok out) :
    (n_chains = 1 → ∃ x_l x_d, out = .scalar x_l x_d) ∧
    (2 ≤ n_chains → ∃ ls ds, out = .batch ls ds ∧
      ls.length = n_chains ∧ ds.length = n_chains) := by
  simp only [initializeCall] at h
  split at h
  next err hm => exact absurd h (by simp)
  next chain_tuples hm =>
    have hlen : chain_tuples.length = n_chains := by
      have := mapTasksFrom_ok_length ( do_initialize engine ctx)
        (mintSeeds s n_chains).1 0 chain_tuples hm
      rw [this, mintSeeds_length]
    split at h
    next hu => exact absurd h (by simp)
    next X_L_list X_D_list hu =>
      have hXL : X_L_list = chain_tuples.map Prod.fst ∧
          X_D_list = chain_tuples.map Prod.snd := by
        cases chain_tuples with
        | nil => simp [unzipPairs] at hu
        | cons t ts =>
          simp only [unzipPairs] at hu
          cases hu
          exact ⟨rfl, rfl⟩
      obtain ⟨hL, hD⟩ := hXL
      split at h
      next hone =>
        split at h
        next x_l x_d hxl hxd =>
          cases h
          exact ⟨fun _ => ⟨x_l, x_d, rfl⟩, fun h2 => by omega⟩
        next hcatch =>
          exact absurd h (by simp)
      next hne =>
        cases h
        exact ⟨fun h1 => absurd h1 hne,
          fun h2 => ⟨X_L_list, X_D_list, rfl, by simp [hL, hlen],
            by simp [hD, hlen]⟩⟩

/-- Witness for C1 at `n_chains = 2` with the concrete engine: the call
succeeds with a batch of two parallel length-2 sequences. -/
theorem initialize_shape_polymorphism_witness :
    ((2 : Nat) = 1 → ∃ x_l x_d,
      (ChainShape.batch [0, 1] [100, 101] : ChainShape Nat Nat) =
        .scalar x_l x_d) ∧
    (2 ≤ 2 → ∃ ls ds,
      (ChainShape.batch [0, 1] [100, 101] : ChainShape Nat Nat) =
        .batch ls ds ∧ ls.length = 2 ∧ ds.length = 2) :=
  initialize_shape_polymorphism engInitN ⟨0⟩ ctxInitN 2
    (.batch [0, 1] [100, 101]) (by rfl)

/-! ### Claim C2 -/

/-- C2 counterexample: permuting the input batch does not permute the
output batch identically, because seeds are assigned by position from the
counter.  On `[10, 20]` the call yields `[10, 21]` (seeds `0, 1`); the
identically permuted output would be `[21, 10]`, but on the swapped input
`[20, 10]` the call yields `[20, 11]`. -/
theorem analyze_permutation_counterexample :
    (analyze engAnaN ⟨0⟩ ctxAnaN (.batch [10, 20] [0, 0])).result =
      .ok (.batch [10, 21] [0, 0]) ∧
    (analyze engAnaN ⟨0⟩ ctxAnaN (.batch [20, 10] [0, 0])).result =
      .ok (.batch [20, 11] [0, 0]) ∧
    (ChainShape.batch [20, 11] [0, 0] : ChainShape Nat Nat) ≠
      .batch [21, 10] [0, 0] :=
  ⟨rfl, rfl, by decide⟩

/-- C2 (amended): a successful `analyze` maps a scalar input to a scalar
output and a batch of size `k` to a batch of size `k`, and the output at
position `j` is the inference engine applied to the input at position `j`
and to the `j`-th seed minted by this call (`counter + j`) — so there is no
cross-chain dependence, but permuting the input batch does not permute the
output batch identically, since seeds attach to positions. -/
theorem analyze_shape_and_locality {MC TT KL CI RI XL XD E : Type}
    (engine : MC → TT → XL → XD → KL → Nat → CI → RI → Int → Int → Nat →
      Except E (XL × XD))
    (s : SeedSequencer) (ctx : AnalyzeCtx MC TT KL CI RI) :
    (∀ (x_l : XL) (x_d : XD) (out : ChainShape XL XD),
      (analyze engine s ctx (.scalar x_l x_d)).result = .ok out →
      ∃ y_l y_d, out = .scalar y_l y_d ∧
        engine ctx.M_c ctx.T x_l x_d ctx.kernel_list ctx.n_steps ctx.c ctx.r
          ctx.max_iterations ctx.max_time s.counter = .ok (y_l, y_d)) ∧
    (∀ (ls : List XL) (ds : List XD) (out : ChainShape XL XD),
      ls.length = ds.length →
      (analyze engine s ctx (.batch ls ds)).result = .ok out →
      ∃ ls2 ds2, out = .batch ls2 ds2 ∧
        ls2.length = ls.length ∧ ds2.length = ls.length ∧
        ∀ (j : Nat) (hj : j < ls.length) (h2 : j < ls2.length)
          (h3 : j < ds.length) (h4 : j < ds2.length),
          engine ctx.M_c ctx.T (ls.get ⟨j, hj⟩) (ds.get ⟨j, h3⟩)
            ctx.kernel_list ctx.n_steps ctx.c ctx.r
            ctx.max_iterations ctx.max_time (s.counter + j) =
            .ok (ls2.get ⟨j, h2⟩, ds2.get ⟨j, h4⟩)) := by
  constructor
  · intro x_l x_d out h
    simp only [analyze, ensure_multistate] at h
    split at h
    next err hm => exact absurd h (by simp)
    next chain_tuples hm =>
      have hlen : chain_tuples.length = 1 := by
        have := mapTasksFrom_ok_length (do_analyze engine ctx) _ 0
          chain_tuples hm
        simpa [mintSeeds_eq, List.range'] using this
      match chain_tuples, hlen with
      | [ct], _ =>
        have hct : do_analyze engine ctx ((x_l, x_d), s.counter) = .ok ct := by
          have := mapTasksFrom_ok_get (do_analyze engine ctx) _ 0 [ct] hm
            0 (by simp [mintSeeds_eq, List.range']) (by simp)
          simpa [mintSeeds_eq, List.range'] using this
        simp only [unzipPairs, List.map_cons, List.map_nil, List.head?] at h
        cases h
        exact ⟨ct.1, ct.2, rfl, by simpa [do_analyze] using hct⟩
  · intro ls ds out hlen h
    simp only [analyze, ensure_multistate, if_pos hlen] at h
    split at h
    next err hm => exact absurd h (by simp)
    next chain_tuples hm =>
      have hargs : (List.zip (List.zip ls ds)
          (mintSeeds s ls.length).1).length = ls.length := by
        simp [List.length_zip, mintSeeds_eq, hlen.symm]
      have hclen : chain_tuples.length = ls.length := by
        have := mapTasksFrom_ok_length (do_analyze engine ctx) _ 0
          chain_tuples hm
        rw [this, hargs]
      split at h
      next hu =>
        exact absurd h (by simp)
      next X_L_prime X_D_prime hu =>
        have hXL : X_L_prime = chain_tuples.map Prod.fst ∧
            X_D_prime = chain_tuples.map Prod.snd := by
          cases chain_tuples with
          | nil => simp [unzipPairs] at hu
          | cons t ts =>
            simp only [unzipPairs] at hu
            cases hu
            exact ⟨rfl, rfl⟩
        obtain ⟨hL, hD⟩ := hXL
        cases h
        refine ⟨X_L_prime, X_D_prime, rfl, by simp [hL, hclen],
          by simp [hD, hclen], ?_⟩
        intro j hj h2 h3 h4
        have hje : j < (List.zip (List.zip ls ds)
            (mintSeeds s ls.length).1).length := by rw [hargs]; exact hj
        have hjc : j < chain_tuples.length := by rw [hclen]; exact hj
        have hget := mapTasksFrom_ok_get (do_analyze engine ctx) _ 0
          chain_tuples hm j hje hjc
        have harg : (List.zip (List.zip ls ds)
            (mintSeeds s ls.length).1).get ⟨j, hje⟩ =
            ((ls.get ⟨j, hj⟩, ds.get ⟨j, h3⟩), s.counter + j) := by
          simp [List.get_eq_getElem, List.getElem_zip, mintSeeds_eq,
            List.getElem_range'_1]
        rw [harg] at hget
        simp only [do_analyze] at hget
        rw [hget]
        subst hL; subst hD
        simp [List.get_eq_getElem, List.getElem_map]

/-- Witness for C2: the scalar case at `(7, 9)` with counter `0`, and the
batch case at `([10, 20], [0, 0])`, both with the concrete engine. -/
theorem analyze_shape_and_locality_witness :
    (∃ y_l y_d, (ChainShape.scalar 7 9 : ChainShape Nat Nat) =
        .scalar y_l y_d ∧
      engAnaN 3 0 7 9 0 1 0 0 (-1) (-1) 0 = .ok (y_l, y_d)) ∧
    (∃ ls2 ds2, (ChainShape.batch [10, 21] [0, 0] : ChainShape Nat Nat) =
        .batch ls2 ds2 ∧
      ls2.length = 2 ∧ ds2.length = 2 ∧
      ∀ (j : Nat) (hj : j < 2) (h2 : j < ls2.length)
        (h3 : j < 2) (h4 : j < ds2.length),
        engAnaN 3 0 (List.get [10, 20] ⟨j, hj⟩) (List.get [0, 0] ⟨j, h3⟩)
          0 1 0 0 (-1) (-1) (0 + j) =
          .ok (ls2.get ⟨j, h2⟩, ds2.get ⟨j, h4⟩)) :=
  ⟨(analyze_shape_and_locality engAnaN ⟨0⟩ ctxAnaN).1 7 9 (.scalar 7 9) rfl,
   (analyze_shape_and_locality engAnaN ⟨0⟩ ctxAnaN).2 [10, 20] [0, 0]
     (.batch [10, 21] [0, 0]) rfl rfl⟩

/-! ### Claim C3: seed discipline across a process lifetime -/

/-- The seeds carried by the tasks of an `initialize` trace, in dispatch
order. -/
def initTraceSeeds {C : Type} (tr : List (Event C Nat)) : List Nat :=
  tr.filterMap fun ev =>
    match ev with
    | .push _ => none
    | .runTask seed => some seed

/-- The seeds carried by the tasks of an `analyze` trace, in dispatch
order (each task argument is `((X_L, X_D), seed)`). -/
def analyzeTraceSeeds {C XL XD : Type}
    (tr : List (Event C ((XL × XD) × Nat))) : List Nat :=
  tr.filterMap fun ev =>
    match ev with
    | .push _ => none
    | .runTask arg => some arg.2

/-- One orchestration call as issued by a client over a process lifetime:
either an `initialize` or an `analyze` invocation. -/
inductive CallSpec (MC MR TT II KL CI RI XL XD : Type) where
  | initCall (ctx : InitCtx MC MR TT II) (n_chains : Nat)
  | analyzeCall (ctx : AnalyzeCtx MC TT KL CI RI) (input : ChainShape XL XD)

/-- Run a sequence of orchestration calls against one engine instance,
threading the seed sequencer from call to call, and collect every seed
handed to a dispatched task, in issuance order. -/
def runCallsSeeds {MC MR TT II KL CI RI XL XD E : Type}
    (engineI : MC → MR → TT → II → Nat → Except E (XL × XD))
    (engineA : MC → TT → XL → XD → KL → Nat → CI → RI → Int → Int → Nat →
      Except E (XL × XD)) :
    SeedSequencer → List (CallSpec MC MR TT II KL CI RI XL XD) → List Nat
  | _, [] => []
  | s, .initCall ctx n :: rest =>
    let r := initializeCall engineI s ctx n
    initTraceSeeds r.trace ++ runCallsSeeds engineI engineA r.seq rest
  | s, .analyzeCall ctx input :: rest =>
    let r := analyze engineA s ctx input
    analyzeTraceSeeds r.trace ++ runCallsSeeds engineI engineA r.seq rest

theorem initializeCall_seq {MC MR TT II XL XD E : Type}
    (engine : MC → MR → TT → II → Nat → Except E (XL × XD))
    (s : SeedSequencer) (ctx : InitCtx MC MR TT II) (n : Nat) :
    (initializeCall engine s ctx n).seq = ⟨s.counter + n⟩ := by
  simp only [initializeCall]
  split
  next => simp [mintSeeds_eq]
  next =>
    split
    next => simp [mintSeeds_eq]
    next =>
      split
      next => split <;> simp [mintSeeds_eq]
      next => simp [mintSeeds_eq]

theorem initializeCall_trace {MC MR TT II XL XD E : Type}
    (engine : MC → MR → TT → II → Nat → Except E (XL × XD))
    (s : SeedSequencer) (ctx : InitCtx MC MR TT II) (n : Nat) :
    (initializeCall engine s ctx n).trace =
      Event.push ctx ::
        (List.range' s.counter n).map Event.runTask := by
  simp only [initializeCall]
  split
  next => simp [mintSeeds_eq]
  next =>
    split
    next => simp [mintSeeds_eq]
    next =>
      split
      next => split <;> simp [mintSeeds_eq]
      next => simp [mintSeeds_eq]

theorem analyze_seq_of_ok {MC TT KL CI RI XL XD E : Type}
    (engine : MC → TT → XL → XD → KL → Nat → CI → RI → Int → Int → Nat →
      Except E (XL × XD))
    (s : SeedSequencer) (ctx : AnalyzeCtx MC TT KL CI RI)
    (input : ChainShape XL XD) (ls : List XL) (ds : List XD) (w : Bool)
    (h : ensure_multistate (E := E) input = .ok (ls, ds, w)) :
    (analyze engine s ctx input).seq = ⟨s.counter + ls.length⟩ := by
  simp only [analyze, h]
  split
  next => simp [mintSeeds_eq]
  next =>
    split
    next => simp [mintSeeds_eq]
    next =>
      split
      next => simp [mintSeeds_eq]
      next => split <;> simp [mintSeeds_eq]

theorem analyze_trace_of_ok {MC TT KL CI RI XL XD E : Type}
    (engine : MC → TT → XL → XD → KL → Nat → CI → RI → Int → Int → Nat →
      Except E (XL × XD))
    (s : SeedSequencer) (ctx : AnalyzeCtx MC TT KL CI RI)
    (input : ChainShape XL XD) (ls : List XL) (ds : List XD) (w : Bool)
    (h : ensure_multistate (E := E) input = .ok (ls, ds, w)) :
    (analyze engine s ctx input).trace =
      Event.push ctx ::
        (List.zip (List.zip ls ds)
          (List.range' s.counter ls.length)).map Event.runTask := by
  simp only [analyze, h]
  split
  next => simp [mintSeeds_eq]
  next =>
    split
    next => simp [mintSeeds_eq]
    next =>
      split
      next => simp [mintSeeds_eq]
      next => split <;> simp [mintSeeds_eq]

theorem analyze_of_shape_error {MC TT KL CI RI XL XD E : Type}
    (engine : MC → TT → XL → XD → KL → Nat → CI → RI → Int → Int → Nat →
      Except E (XL × XD))
    (s : SeedSequencer) (ctx : AnalyzeCtx MC TT KL CI RI)
    (input : ChainShape XL XD) (err : CallError E)
    (h : ensure_multistate (E := E) input = .error err) :
    analyze engine s ctx input = ⟨.error err, s, [Event.push ctx]⟩ := by
  simp only [analyze, h]

/-- Normalization either fails or returns the latent list unchanged
in shape; used to do case analysis on a call's normalization. -/
theorem ensure_multistate_cases {XL XD E : Type} (input : ChainShape XL XD) :
    (∃ err, ensure_multistate (E := E) input = .error err) ∨
    (∃ ls ds w, ensure_multistate (E := E) input = .ok (ls, ds, w)) := by
  cases input with
  | scalar x_l x_d => exact Or.inr ⟨[x_l], [x_d], false, rfl⟩
  | batch ls ds =>
    by_cases hl : ls.length = ds.length
    · exact Or.inr ⟨ls, ds, true, by simp [ensure_multistate, hl]⟩
    · exact Or.inl ⟨.inputShape, by simp [ensure_multistate, hl]⟩

theorem initTraceSeeds_eq {C : Type} (ctx : C) (seeds : List Nat) :
    initTraceSeeds (Event.push ctx :: seeds.map Event.runTask) = seeds := by
  simp only [initTraceSeeds, List.filterMap_cons]
  rw [List.filterMap_map]
  induction seeds with
  | nil => rfl
  | cons x xs ih =>
    rw [List.filterMap_cons]
    simp only [Function.comp_apply]
    rw [ih]

theorem analyzeTraceSeeds_eq {C XL XD : Type} (ctx : C)
    (args : List ((XL × XD) × Nat)) :
    analyzeTraceSeeds (Event.push ctx :: args.map Event.runTask) =
      args.map Prod.snd := by
  simp only [analyzeTraceSeeds, List.filterMap_cons]
  rw [List.filterMap_map]
  induction args with
  | nil => rfl
  | cons x xs ih =>
    rw [List.filterMap_cons, List.map_cons]
    simp only [Function.comp_apply]
    rw [ih]

theorem pairwise_lt_range' : ∀ (n c : Nat),
    List.Pairwise (· < ·) (List.range' c n)
  | 0, _ => List.Pairwise.nil
  | n + 1, c => by
    rw [List.range'_succ]
    exact List.Pairwise.cons
      (fun m hm => ((List.mem_range'_1).1 hm).1.trans_lt' (by omega))
      (pairwise_lt_range' n (c + 1))

theorem ensure_multistate_ok_length {XL XD E : Type}
    {input : ChainShape XL XD} {ls : List XL} {ds : List XD} {w : Bool}
    (h : ensure_multistate (E := E) input = .ok (ls, ds, w)) :
    ls.length = ds.length := by
  cases input with
  | scalar a b =>
    simp only [ensure_multistate] at h
    cases h
    rfl
  | batch a b =>
    simp only [ensure_multistate] at h
    split at h
    next heq => cases h; exact heq
    next => exact absurd h (by simp)

/-- Invariant behind C3: starting from any sequencer state, the seeds
collected over any sequence of calls are strictly increasing, and all of
them are at least the starting counter. -/
theorem runCallsSeeds_sorted_bounded {MC MR TT II KL CI RI XL XD E : Type}
    (engineI : MC → MR → TT → II → Nat → Except E (XL × XD))
    (engineA : MC → TT → XL → XD → KL → Nat → CI → RI → Int → Int → Nat →
      Except E (XL × XD)) :
    ∀ (calls : List (CallSpec MC MR TT II KL CI RI XL XD))
      (s : SeedSequencer),
      List.Pairwise (· < ·) (runCallsSeeds engineI engineA s calls) ∧
      ∀ x ∈ runCallsSeeds engineI engineA s calls, s.counter ≤ x := by
  intro calls
  induction calls with
  | nil => intro s; simp [runCallsSeeds]
  | cons c cs ih =>
    intro s
    cases c with
    | initCall ctx n =>
      have hseeds : initTraceSeeds (initializeCall engineI s ctx n).trace =
          List.range' s.counter n := by
        rw [initializeCall_trace]
        exact initTraceSeeds_eq ctx (List.range' s.counter n)
      have hrun : runCallsSeeds engineI engineA s (.initCall ctx n :: cs) =
          List.range' s.counter n ++
            runCallsSeeds engineI engineA ⟨s.counter + n⟩ cs := by
        simp only [runCallsSeeds, hseeds, initializeCall_seq]
      rw [hrun]
      obtain ⟨ihs, ihb⟩ := ih ⟨s.counter + n⟩
      constructor
      · refine (List.pairwise_append).2 ⟨pairwise_lt_range' n s.counter,
          ihs, ?_⟩
        intro a ha b hb
        have h1 := (List.mem_range'_1.1 ha).2
        have h2 : s.counter + n ≤ b := ihb b hb
        omega
      · intro x hx
        rcases List.mem_append.1 hx with hx | hx
        · exact (List.mem_range'_1.1 hx).1
        · have h2 : s.counter + n ≤ x := ihb x hx
          omega
    | analyzeCall ctx input =>
      rcases ensure_multistate_cases (E := E) input with
        ⟨err, herr⟩ | ⟨ls, ds, w, hok⟩
      · have hrun : runCallsSeeds engineI engineA s
            (.analyzeCall ctx input :: cs) =
            runCallsSeeds engineI engineA s cs := by
          simp only [runCallsSeeds,
            analyze_of_shape_error engineA s ctx input err herr,
            analyzeTraceSeeds, List.filterMap, List.nil_append]
        rw [hrun]
        exact ih s
      · have hldlen : ls.length = ds.length := ensure_multistate_ok_length hok
        have hseeds : analyzeTraceSeeds (analyze engineA s ctx input).trace =
            List.range' s.counter ls.length := by
          rw [analyze_trace_of_ok engineA s ctx input ls ds w hok,
            analyzeTraceSeeds_eq]
          exact List.map_snd_zip (List.zip ls ds) _
            (by simp [List.length_zip, hldlen.symm])
        have hrun : runCallsSeeds engineI engineA s
            (.analyzeCall ctx input :: cs) =
            List.range' s.counter ls.length ++
              runCallsSeeds engineI engineA ⟨s.counter + ls.length⟩ cs := by
          simp only [runCallsSeeds, hseeds,
            analyze_seq_of_ok engineA s ctx input ls ds w hok]
        rw [hrun]
        obtain ⟨ihs, ihb⟩ := ih ⟨s.counter + ls.length⟩
        constructor
        · refine (List.pairwise_append).2
            ⟨pairwise_lt_range' ls.length s.counter, ihs, ?_⟩
          intro a ha b hb
          have h1 := (List.mem_range'_1.1 ha).2
          have h2 : s.counter + ls.length ≤ b := ihb b hb
          omega
        · intro x hx
          rcases List.mem_append.1 hx with hx | hx
          · exact (List.mem_range'_1.1 hx).1
          · have h2 : s.counter + ls.length ≤ x := ihb x hx
            omega

/-- C3: within one process lifetime, the seeds the engine hands to
dispatched tasks across any sequence of `initialize` and `analyze` calls
are strictly increasing in issuance order and pairwise distinct — in
particular no two chains of the same orchestration call share a seed. -/
theorem seeds_distinct_and_increasing {MC MR TT II KL CI RI XL XD E : Type}
    (engineI : MC → MR → TT → II → Nat → Except E (XL × XD))
    (engineA : MC → TT → XL → XD → KL → Nat → CI → RI → Int → Int → Nat →
      Except E (XL × XD))
    (s : SeedSequencer) (calls : List (CallSpec MC MR TT II KL CI RI XL XD)) :
    List.Pairwise (· < ·) (runCallsSeeds engineI engineA s calls) ∧
    List.Pairwise (· ≠ ·) (runCallsSeeds engineI engineA s calls) :=
  ⟨(runCallsSeeds_sorted_bounded engineI engineA calls s).1,
   ((runCallsSeeds_sorted_bounded engineI engineA calls s).1).imp
     Nat.ne_of_lt⟩

/-! ### Claim C4 -/

/-- C4: if a dispatched worker task raises — the task at offset `i` being
the first to fail — the whole `initialize` or `analyze` call fails with a
`WorkerTaskError` carrying that task's index and the underlying cause, and
no partial results reach the caller. -/
theorem worker_failure_fails_whole_call
    {MC MR TT II KL CI RI XL XD E : Type}
    (engineI : MC → MR → TT → II → Nat → Except E (XL × XD))
    (engineA : MC → TT → XL → XD → KL → Nat → CI → RI → Int → Int → Nat →
      Except E (XL × XD)) :
    (∀ (s : SeedSequencer) (ctx : InitCtx MC MR TT II) (n i : Nat)
      (e : E), i < n →
      do_initialize engineI ctx (s.counter + i) = .error e →
      (∀ k, k < i → ∃ b, do_initialize engineI ctx (s.counter + k) = .ok b) →
      (initializeCall engineI s ctx n).result =
        .error (.workerTask ⟨i, e⟩) ∧
      ∀ out, (initializeCall engineI s ctx n).result ≠ .ok out) ∧
    (∀ (s : SeedSequencer) (ctx : AnalyzeCtx MC TT KL CI RI)
      (ls : List XL) (ds : List XD) (i : Nat) (e : E)
      (hlen : ls.length = ds.length) (hi : i < ls.length)
      (hi2 : i < ds.length),
      do_analyze engineA ctx ((ls.get ⟨i, hi⟩, ds.get ⟨i, hi2⟩),
        s.counter + i) = .error e →
      (∀ k (hk : k < i),
        ∃ b, do_analyze engineA ctx
          ((ls.get ⟨k, by omega⟩, ds.get ⟨k, by omega⟩),
            s.counter + k) = .ok b) →
      (analyze engineA s ctx (.batch ls ds)).result =
        .error (.workerTask ⟨i, e⟩) ∧
      ∀ out, (analyze engineA s ctx (.batch ls ds)).result ≠ .ok out) := by
  constructor
  · intro s ctx n i e hi hfail hprev
    have hseeds : (mintSeeds s n).1 = List.range' s.counter n := by
      simp [mintSeeds_eq]
    have hget : ∀ (k : Nat) (hk : k < n),
        (mintSeeds s n).1.get ⟨k, by simp [mintSeeds_length, hk]⟩ =
          s.counter + k := by
      intro k hk
      simp [hseeds, List.get_eq_getElem, List.getElem_range'_1]
    have hmap : mapTasks ( do_initialize engineI ctx) (mintSeeds s n).1 =
        .error ⟨i, e⟩ := by
      have hilen : i < (mintSeeds s n).1.length := by
        simp [mintSeeds_length, hi]
      have := mapTasksFrom_first_error ( do_initialize engineI ctx)
        (mintSeeds s n).1 0 i hilen e
        (by rw [hget i hi]; exact hfail)
        (fun k hk => by
          rw [hget k (by omega)]
          exact hprev k hk)
      simpa [mapTasks] using this
    have hres : (initializeCall engineI s ctx n).result =
        .error (.workerTask ⟨i, e⟩) := by
      simp only [initializeCall]
      split
      next err heq =>
        rw [hmap] at heq
        cases heq
        rfl
      next chain_tuples heq =>
        rw [hmap] at heq
        exact absurd heq (by simp)
    refine ⟨hres, ?_⟩
    intro out hout
    rw [hres] at hout
    exact absurd hout (by simp)
  · intro s ctx ls ds i e hlen hi hi2 hfail hprev
    have hargs_len : (List.zip (List.zip ls ds)
        (mintSeeds s ls.length).1).length = ls.length := by
      simp [List.length_zip, mintSeeds_eq, hlen.symm]
    have hget : ∀ (k : Nat) (hk : k < ls.length),
        (List.zip (List.zip ls ds) (mintSeeds s ls.length).1).get
          ⟨k, by rw [hargs_len]; exact hk⟩ =
          ((ls.get ⟨k, hk⟩, ds.get ⟨k, by omega⟩), s.counter + k) := by
      intro k hk
      simp [List.get_eq_getElem, List.getElem_zip, mintSeeds_eq,
        List.getElem_range'_1]
    have hmap : mapTasks (do_analyze engineA ctx)
        (List.zip (List.zip ls ds) (mintSeeds s ls.length).1) =
        .error ⟨i, e⟩ := by
      have hilen : i < (List.zip (List.zip ls ds)
          (mintSeeds s ls.length).1).length := by
        rw [hargs_len]; exact hi
      have := mapTasksFrom_first_error (do_analyze engineA ctx)
        (List.zip (List.zip ls ds) (mintSeeds s ls.length).1) 0 i hilen e
        (by rw [hget i hi]; exact hfail)
        (fun k hk => by
          rw [hget k (by omega)]
          exact hprev k hk)
      simpa [mapTasks] using this
    have hres : (analyze engineA s ctx (.batch ls ds)).result =
        .error (.workerTask ⟨i, e⟩) := by
      simp only [analyze, ensure_multistate, if_pos hlen]
      split
      next err heq =>
        rw [hmap] at heq
        cases heq
        rfl
      next chain_tuples heq =>
        rw [hmap] at heq
        exact absurd heq (by simp)
    refine ⟨hres, ?_⟩
    intro out hout
    rw [hres] at hout
    exact absurd hout (by simp)

/-- Witness for C4: the failing engines fail exactly on seed `1`, so a
3-chain `initialize` from counter `0` and a 2-chain `analyze` from counter
`0` both abort with the `WorkerTaskError` at index `1`. -/
theorem worker_failure_fails_whole_call_witness :
    ((initializeCall engInitFailN ⟨0⟩ ctxInitN 3).result =
        .error (.workerTask ⟨1, 42⟩) ∧
      ∀ out, (initializeCall engInitFailN ⟨0⟩ ctxInitN 3).result ≠
        .ok out) ∧
    ((analyze engAnaFailN ⟨0⟩ ctxAnaN (.batch [5, 6] [0, 0])).result =
        .error (.workerTask ⟨1, 7⟩) ∧
      ∀ out, (analyze engAnaFailN ⟨0⟩ ctxAnaN
        (.batch [5, 6] [0, 0])).result ≠ .ok out) :=
  ⟨(worker_failure_fails_whole_call engInitFailN engAnaFailN).1
      ⟨0⟩ ctxInitN 3 1 42 (by decide) (by rfl)
      (fun k hk => by interval_cases k; exact ⟨(0, 0), rfl⟩),
   (worker_failure_fails_whole_call engInitFailN engAnaFailN).2
      ⟨0⟩ ctxAnaN [5, 6] [0, 0] 1 7 (by decide) (by decide) (by decide)
      (by rfl)
      (fun k hk => by interval_cases k; exact ⟨(5, 0), rfl⟩)⟩

/-! ### Claims C5 and C10 -/

/-- C5: an `analyze` call whose latent-state and partition-state sequences
have unequal lengths fails with `InputShapeError`, and no task is handed to
the worker pool: the call's trace holds no `runTask` event. -/
theorem analyze_unequal_lengths_no_dispatch
    {MC TT KL CI RI XL XD E : Type}
    (engine : MC → TT → XL → XD → KL → Nat → CI → RI → Int → Int → Nat →
      Except E (XL × XD))
    (s : SeedSequencer) (ctx : AnalyzeCtx MC TT KL CI RI)
    (ls : List XL) (ds : List XD) (h : ls.length ≠ ds.length) :
    (analyze engine s ctx (.batch ls ds)).result = .error .inputShape ∧
    ∀ ev ∈ (analyze engine s ctx (.batch ls ds)).trace,
      ∀ arg, ev ≠ Event.runTask arg := by
  have herr : ensure_multistate (E := E) (ChainShape.batch ls ds) =
      .error .inputShape := by
    simp [ensure_multistate, h]
  rw [analyze_of_shape_error engine s ctx (.batch ls ds) .inputShape herr]
  refine ⟨rfl, ?_⟩
  intro ev hev arg
  simp only [List.mem_singleton] at hev
  subst hev
  intro hcon
  cases hcon

/-- Witness for C5 at `X_L = [1]`, `X_D = []`. -/
theorem analyze_unequal_lengths_no_dispatch_witness :
    (analyze engAnaN ⟨0⟩ ctxAnaN (.batch [1] [])).result =
      .error .inputShape ∧
    ∀ ev ∈ (analyze engAnaN ⟨0⟩ ctxAnaN (.batch [1] [])).trace,
      ∀ arg, ev ≠ Event.runTask arg :=
  analyze_unequal_lengths_no_dispatch engAnaN ⟨0⟩ ctxAnaN [1] []
    (by decide)

/-- C10: `analyze` pushes the shared context before validating the input
shapes, so even a call that fails the shape check has already delivered the
shared context to the workers — its first (and only) worker-pool
interaction is the push. -/
theorem analyze_pushes_despite_shape_error
    {MC TT KL CI RI XL XD E : Type}
    (engine : MC → TT → XL → XD → KL → Nat → CI → RI → Int → Int → Nat →
      Except E (XL × XD))
    (s : SeedSequencer) (ctx : AnalyzeCtx MC TT KL CI RI)
    (ls : List XL) (ds : List XD) (h : ls.length ≠ ds.length) :
    (analyze engine s ctx (.batch ls ds)).result = .error .inputShape ∧
    Event.push ctx ∈ (analyze engine s ctx (.batch ls ds)).trace ∧
    (analyze engine s ctx (.batch ls ds)).trace.head? =
      some (Event.push ctx) := by
  have herr : ensure_multistate (E := E) (ChainShape.batch ls ds) =
      .error .inputShape := by
    simp [ensure_multistate, h]
  rw [analyze_of_shape_error engine s ctx (.batch ls ds) .inputShape herr]
  exact ⟨rfl, by simp, rfl⟩

/-- Witness for C10 at `X_L = [1, 2]`, `X_D = [9]`. -/
theorem analyze_pushes_despite_shape_error_witness :
    (analyze engAnaN ⟨0⟩ ctxAnaN (.batch [1, 2] [9])).result =
      .error .inputShape ∧
    Event.push ctxAnaN ∈
      (analyze engAnaN ⟨0⟩ ctxAnaN (.batch [1, 2] [9])).trace ∧
    (analyze engAnaN ⟨0⟩ ctxAnaN (.batch [1, 2] [9])).trace.head? =
      some (Event.push ctxAnaN) :=
  analyze_pushes_despite_shape_error engAnaN ⟨0⟩ ctxAnaN [1, 2] [9]
    (by decide)

/-! ### Claim C7 -/

/-- Whether a worker-pool interaction is the shared-context push. -/
def isPush {C A : Type} : Event C A → Bool
  | .push _ => true
  | .runTask _ => false

theorem countP_isPush_map_runTask {C A : Type} (l : List A) :
    ((l.map Event.runTask).countP (isPush (C := C))) = 0 := by
  induction l with
  | nil => rfl
  | cons x xs ih => simp [List.countP_cons, isPush, ih]

/-- C7: every `initialize` or `analyze` call pushes the shared context to
the worker pool exactly once — not once per task — and that push is the
first worker-pool interaction of the call: every task dispatch comes after
it in the call's trace. -/
theorem push_once_before_tasks {MC MR TT II KL CI RI XL XD E : Type}
    (engineI : MC → MR → TT → II → Nat → Except E (XL × XD))
    (engineA : MC → TT → XL → XD → KL → Nat → CI → RI → Int → Int → Nat →
      Except E (XL × XD)) :
    (∀ (s : SeedSequencer) (ctx : InitCtx MC MR TT II) (n : Nat),
      ((initializeCall engineI s ctx n).trace.countP isPush) = 1 ∧
      (initializeCall engineI s ctx n).trace.head? =
        some (Event.push ctx) ∧
      ∀ ev ∈ (initializeCall engineI s ctx n).trace.tail,
        ∃ arg, ev = Event.runTask arg) ∧
    (∀ (s : SeedSequencer) (ctx : AnalyzeCtx MC TT KL CI RI)
      (input : ChainShape XL XD),
      ((analyze engineA s ctx input).trace.countP isPush) = 1 ∧
      (analyze engineA s ctx input).trace.head? = some (Event.push ctx) ∧
      ∀ ev ∈ (analyze engineA s ctx input).trace.tail,
        ∃ arg, ev = Event.runTask arg) := by
  constructor
  · intro s ctx n
    rw [initializeCall_trace]
    refine ⟨?_, rfl, ?_⟩
    · rw [List.countP_cons]
      simp [countP_isPush_map_runTask, isPush]
    · intro ev hev
      simp only [List.tail_cons, List.mem_map] at hev
      obtain ⟨seed, _, hseed⟩ := hev
      exact ⟨seed, hseed.symm⟩
  · intro s ctx input
    rcases ensure_multistate_cases (E := E) input with
      ⟨err, herr⟩ | ⟨ls, ds, w, hok⟩
    · rw [analyze_of_shape_error engineA s ctx input err herr]
      refine ⟨?_, rfl, ?_⟩
      · simp [List.countP_cons, isPush]
      · intro ev hev
        simp at hev
    · rw [analyze_trace_of_ok engineA s ctx input ls ds w hok]
      refine ⟨?_, rfl, ?_⟩
      · rw [List.countP_cons]
        simp [countP_isPush_map_runTask, isPush]
      · intro ev hev
        simp only [List.tail_cons, List.mem_map] at hev
        obtain ⟨arg, _, harg⟩ := hev
        exact ⟨arg, harg.symm⟩

/-! ### Claim C8 -/

/-- C8: `initialize` needs `n_chains ≥ 1`.  With `n_chains = 0` it pushes
the context, dispatches zero tasks, and then fails while unpacking
`zip(*chain_tuples)` of the empty result list into two names (`ValueError`)
instead of returning an empty batch; with `n_chains ≥ 1` that unpacking
failure (and the `[0]` indexing failure) is unreachable. -/
theorem initialize_zero_chains {MC MR TT II XL XD E : Type}
    (engine : MC → MR → TT → II → Nat → Except E (XL × XD)) :
    (∀ (s : SeedSequencer) (ctx : InitCtx MC MR TT II),
      initializeCall engine s ctx 0 =
        ⟨.error .valueUnpack, s, [Event.push ctx]⟩) ∧
    (∀ (s : SeedSequencer) (ctx : InitCtx MC MR TT II) (n : Nat), 1 ≤ n →
      (initializeCall engine s ctx n).result ≠ .error .valueUnpack ∧
      (initializeCall engine s ctx n).result ≠ .error .indexOut) := by
  constructor
  · intro s ctx
    rfl
  · intro s ctx n hn
    simp only [initializeCall]
    split
    next err hm => exact ⟨by simp, by simp⟩
    next chain_tuples hm =>
      have hclen : chain_tuples.length = n := by
        rw [mapTasksFrom_ok_length _ _ _ _ hm, mintSeeds_length]
      cases chain_tuples with
      | nil =>
        simp only [List.length_nil] at hclen
        omega
      | cons t ts =>
        split
        next hu => simp [unzipPairs] at hu
        next X_L_list X_D_list hu =>
          simp only [unzipPairs] at hu
          cases hu
          split
          next hone =>
            constructor <;> simp [List.head?]
          next hnot => exact ⟨by simp, by simp⟩

/-- Witness for C8: `n_chains = 0` yields the unpack failure with no tasks
dispatched; `n_chains = 1` avoids both failure branches. -/
theorem initialize_zero_chains_witness :
    (initializeCall engInitN ⟨0⟩ ctxInitN 0 =
      ⟨.error .valueUnpack, ⟨0⟩, [Event.push ctxInitN]⟩) ∧
    ((initializeCall engInitN ⟨0⟩ ctxInitN 1).result ≠
        .error .valueUnpack ∧
      (initializeCall engInitN ⟨0⟩ ctxInitN 1).result ≠
        .error .indexOut) :=
  ⟨(initialize_zero_chains engInitN).1 ⟨0⟩ ctxInitN,
   (initialize_zero_chains engInitN).2 ⟨0⟩ ctxInitN 1 (by decide)⟩

/-! ### Claim C9 -/

/-- C9: when an `analyze` input normalizes to a batch of `n` chains, the
call advances the engine's only cross-call state — the seed counter — by
exactly `n`, and this holds even when the call subsequently fails: the
counter is not restored on error. -/
theorem analyze_consumes_exactly_n_seeds {MC TT KL CI RI XL XD E : Type}
    (engine : MC → TT → XL → XD → KL → Nat → CI → RI → Int → Int → Nat →
      Except E (XL × XD))
    (s : SeedSequencer) (ctx : AnalyzeCtx MC TT KL CI RI)
    (input : ChainShape XL XD) (ls : List XL) (ds : List XD) (w : Bool)
    (h : ensure_multistate (E := E) input = .ok (ls, ds, w)) :
    (analyze engine s ctx input).seq.counter = s.counter + ls.length ∧
    (∀ err, (analyze engine s ctx input).result = .error err →
      (analyze engine s ctx input).seq.counter = s.counter + ls.length) := by
  have hseq := analyze_seq_of_ok engine s ctx input ls ds w h
  rw [hseq]
  exact ⟨rfl, fun _ _ => rfl⟩

/-- Witness for C9: on the 2-chain batch `([5, 6], [0, 0])` the failing
engine aborts the dispatch, yet the counter has still advanced from `0`
to `2`. -/
theorem analyze_consumes_exactly_n_seeds_witness :
    (analyze engAnaFailN ⟨0⟩ ctxAnaN
      (.batch [5, 6] [0, 0])).seq.counter = 2 ∧
    (∀ err, (analyze engAnaFailN ⟨0⟩ ctxAnaN
        (.batch [5, 6] [0, 0])).result = .error err →
      (analyze engAnaFailN ⟨0⟩ ctxAnaN
        (.batch [5, 6] [0, 0])).seq.counter = 2) :=
  analyze_consumes_exactly_n_seeds engAnaFailN ⟨0⟩ ctxAnaN
    (.batch [5, 6] [0, 0]) [5, 6] [0, 0] true (by rfl)

/-! ### Claim C6 -/

theorem initializeCall_ok_batch_lengths {MC MR TT II XL XD E : Type}
    (engine : MC → MR → TT → II → Nat → Except E (XL × XD))
    (s : SeedSequencer) (ctx : InitCtx MC MR TT II) (n : Nat)
    (ls : List XL) (ds : List XD)
    (h : (initializeCall engine s ctx n).result = .ok (.batch ls ds)) :
    ls.length = n ∧ ds.length = n := by
  simp only [initializeCall] at h
  split at h
  next err hm => exact absurd h (by simp)
  next chain_tuples hm =>
    have hclen : chain_tuples.length = n := by
      rw [mapTasksFrom_ok_length _ _ _ _ hm, mintSeeds_length]
    split at h
    next hu => exact absurd h (by simp)
    next X_L_list X_D_list hu =>
      have hXL : X_L_list = chain_tuples.map Prod.fst ∧
          X_D_list = chain_tuples.map Prod.snd := by
        cases chain_tuples with
        | nil => simp [unzipPairs] at hu
        | cons t ts =>
          simp only [unzipPairs] at hu
          cases hu
          exact ⟨rfl, rfl⟩
      obtain ⟨hL, hD⟩ := hXL
      split at h
      next hone =>
        split at h
        next x_l x_d hxl hxd => cases h
        next hcatch => exact absurd h (by simp)
      next hne =>
        cases h
        exact ⟨by simp [hL, hclen], by simp [hD, hclen]⟩

/-- C6: from a fresh engine with seed base `0`, `initialize` with
`n_chains = 3` dispatches exactly the 3 tasks with seeds `[0, 1, 2]`, and a
subsequent `analyze` on the resulting 3-chain batch dispatches exactly 3
tasks pairing, in order, each of the 3 states with the seeds `[3, 4, 5]`. -/
theorem three_chain_seed_schedule {MC MR TT II KL CI RI XL XD E : Type}
    (engineI : MC → MR → TT → II → Nat → Except E (XL × XD))
    (engineA : MC → TT → XL → XD → KL → Nat → CI → RI → Int → Int → Nat →
      Except E (XL × XD))
    (ctxI : InitCtx MC MR TT II) (ctxA : AnalyzeCtx MC TT KL CI RI)
    (ls : List XL) (ds : List XD)
    (hinit : (initializeCall engineI ⟨0⟩ ctxI 3).result =
      .ok (.batch ls ds)) :
    initTraceSeeds (initializeCall engineI ⟨0⟩ ctxI 3).trace = [0, 1, 2] ∧
    ls.length = 3 ∧ ds.length = 3 ∧
    analyzeTraceSeeds (analyze engineA (initializeCall engineI ⟨0⟩ ctxI 3).seq
      ctxA (.batch ls ds)).trace = [3, 4, 5] ∧
    (analyze engineA (initializeCall engineI ⟨0⟩ ctxI 3).seq ctxA
      (.batch ls ds)).trace =
      Event.push ctxA ::
        (List.zip (List.zip ls ds) [3, 4, 5]).map Event.runTask := by
  obtain ⟨hl1, hl2⟩ :=
    initializeCall_ok_batch_lengths engineI ⟨0⟩ ctxI 3 ls ds hinit
  have hok : ensure_multistate (E := E) (ChainShape.batch ls ds) =
      .ok (ls, ds, true) := by
    simp [ensure_multistate, hl1, hl2]
  have hr : List.range'
      (initializeCall engineI ⟨0⟩ ctxI 3).seq.counter ls.length =
      [3, 4, 5] := by
    rw [initializeCall_seq, hl1]
    rfl
  refine ⟨?_, hl1, hl2, ?_, ?_⟩
  · rw [initializeCall_trace, initTraceSeeds_eq]
    rfl
  · rw [analyze_trace_of_ok _ _ _ _ ls ds true hok, analyzeTraceSeeds_eq]
    rw [List.map_snd_zip _ _
      (by simp [List.length_zip, hl1, hl2])]
    exact hr
  · rw [analyze_trace_of_ok _ _ _ _ ls ds true hok, hr]

/-- Witness for C6 with the concrete always-succeeding engines. -/
theorem three_chain_seed_schedule_witness :
    initTraceSeeds (initializeCall engInitN ⟨0⟩ ctxInitN 3).trace =
      [0, 1, 2] ∧
    ([0, 1, 2] : List Nat).length = 3 ∧
    ([100, 101, 102] : List Nat).length = 3 ∧
    analyzeTraceSeeds (analyze engAnaN
      (initializeCall engInitN ⟨0⟩ ctxInitN 3).seq ctxAnaN
      (.batch [0, 1, 2] [100, 101, 102])).trace = [3, 4, 5] ∧
    (analyze engAnaN (initializeCall engInitN ⟨0⟩ ctxInitN 3).seq ctxAnaN
      (.batch [0, 1, 2] [100, 101, 102])).trace =
      Event.push ctxAnaN ::
        (List.zip (List.zip [0, 1, 2] [100, 101, 102])
          [3, 4, 5]).map Event.runTask :=
  three_chain_seed_schedule engInitN engAnaN ctxInitN ctxAnaN
    [0, 1, 2] [100, 101, 102] (by rfl)

end CrossCat
